import Mathlib

/-!
# dbdeployer `unpack` command: a shallow embedding of `cmd/unpack.go`

Go strings are modelled as lists of characters (`Str`).  Every string
operation the command performs is delimited by ASCII characters (digits,
`.`, `/`, the suffix `.tar.gz`), so on well-formed text the character view and
Go's byte view agree.

The command talks to the outside world through helpers that live in other
packages (`common`, `unpack`, `os`).  They are collected in `Env` and the run
of the command records every call it makes in a trace of `Event`s, followed by
the way the process ends (`Outcome`).
-/

namespace Unpack

/-- Go string, seen as its sequence of characters. -/
abbrev Str := List Char

/-! ## Go standard library pieces used by the command -/

/-- Perl class `\d` of Go's `regexp`: the ASCII digits `0`..`9` only. -/
def isDigit (c : Char) : Bool := decide (48 ≤ c.toNat) && decide (c.toNat ≤ 57)

/-- Anchored match of `\d+\.\d+\.\d+` at the start of `s`.  The three `\d+` are
greedy; a digit run followed by `\.` has to be consumed whole, so no
backtracking is possible.  Returns the matched text and the unread rest. -/
def matchAt (s : Str) : Option (Str × Str) :=
  match s.span isDigit with
  | ([], _) => none
  | (d1, '.' :: r1) =>
    match r1.span isDigit with
    | ([], _) => none
    | (d2, '.' :: r2) =>
      match r2.span isDigit with
      | ([], _) => none
      | (d3, r3) => some (d1 ++ '.' :: (d2 ++ '.' :: d3), r3)
    | _ => none
  | _ => none

/-- Successive non-overlapping leftmost matches of `\d+\.\d+\.\d+` in a string.
The first argument counts the characters of the previous match that still have
to be skipped. -/
def findAllAux : Nat → Str → List Str
  | _, [] => []
  | skip + 1, _ :: cs => findAllAux skip cs
  | 0, c :: cs =>
    match matchAt (c :: cs) with
    | some (m, _) => m :: findAllAux (m.length - 1) cs
    | none => findAllAux 0 cs

/-- Embedding of `regexp.MustCompile("(\d+\.\d+\.\d+)").FindAllStringSubmatch(s, -1)`:
one row per match, holding the whole match and the single capture group (which
spans the whole expression).  No match gives the empty (nil) slice. -/
def FindAllStringSubmatch (s : Str) : List (List Str) :=
  (findAllAux 0 s).map (fun m => [m, m])

/-- Embedding of `strings.HasSuffix`. -/
def HasSuffix (s suffix : Str) : Bool :=
  decide (suffix.length ≤ s.length) && (s.drop (s.length - suffix.length) == suffix)

/-- Loop of `path.Base` that strips trailing slashes, run on the reversed path. -/
def stripSlashes : Str → Str
  | '/' :: cs => stripSlashes cs
  | cs => cs

/-- Embedding of Go's `path.Base`: the last element of a path.  Trailing
slashes are removed first; the empty path gives `.`, a path of slashes `/`. -/
def Base (p : Str) : Str :=
  if p = [] then ['.']
  else
    let q := (stripSlashes p.reverse).reverse
    let e := (q.reverse.takeWhile (fun c => c != '/')).reverse
    if e = [] then ['/'] else e

/-- Embedding of the Go slice expression `s[0:hi]` with a run-time bound: out of
range bounds are a run-time panic, rendered as `none`. -/
def sliceTo (s : Str) (hi : Int) : Option Str :=
  if 0 ≤ hi ∧ hi ≤ (s.length : Int) then some (s.take hi.toNat) else none

/-- Embedding of the Go index expression `xs[0]`: a panic (`none`) on an empty
slice. -/
def index0 {α : Type} : List α → Option α
  | [] => none
  | x :: _ => some x

/-! ## The command's inputs, collaborators and observable behaviour -/

/-- Everything `UnpackTarball` reads from the command line. -/
structure Request where
  /-- Result of `GetAbsolutePathFromFlag(cmd, "sandbox-binary")`. -/
  Basedir : Str
  /-- Flag `--verbosity`. -/
  verbosity : Int
  /-- Positional argument `args[0]`. -/
  tarball : Str
  /-- Flag `--shell`. -/
  isShell : Bool
  /-- Flag `--target-server`. -/
  target : Str
  /-- Flag `--unpack-version`. -/
  Version : Str
  /-- Flag `--prefix`. -/
  Prefix : Str

/-- Modelled from the spec: the helpers of packages `common`, `unpack` and `os`
that the command calls but whose bodies are not part of `cmd/unpack.go`
(collaborator interfaces `directoryExists`, `versionToPort`, `mergeShellArchive`,
`extractArchive`, `renameDirectory`).  An error result is `some message`,
success is `none`. -/
structure Env where
  /-- Helper `common.DirExists`. -/
  DirExists : Str → Bool
  /-- Helper `common.VersionToPort`, returning a port or an error. -/
  VersionToPort : Str → Except Str Nat
  /-- Helper `common.ReplaceLiteralHome`, used for messages only. -/
  ReplaceLiteralHome : Str → Str
  /-- Helper `unpack.MergeShell(tarball, basedir, destination, barename, verbosity)`. -/
  MergeShell : Str → Str → Str → Str → Int → Option Str
  /-- Helper `unpack.UnpackTar(tarball, basedir, verbosity)`. -/
  UnpackTar : Str → Str → Int → Option Str
  /-- Standard `os.Rename(old, new)`. -/
  Rename : Str → Str → Option Str

/-- Calls and output made by a run, in program order. -/
inductive Event where
  | dirExists (path : Str)
  | versionToPort (version : Str)
  | print (msg : Str)
  | mergeShell (tarball basedir destination barename : Str) (verbosity : Int)
  | unpackTar (tarball basedir : Str) (verbosity : Int)
  | rename (old new : Str)
  deriving DecidableEq, Repr

/-- How a run ends.  Modelled from the spec: `common.Exit`, `common.Exitf` and
`common.ErrCheckExitf` (package `common`) stop the process at once with the given
exit code and messages. -/
inductive Outcome where
  /-- The function returned; the process exits with code 0. -/
  | done
  /-- Termination through `common.Exit` / `common.Exitf` / `common.ErrCheckExitf`. -/
  | exit (code : Nat) (msgs : List Str)
  /-- Go run-time panic. -/
  | panic (msg : Str)
  deriving DecidableEq, Repr

/-- Trace and outcome of one run. -/
structure Run where
  trace : List Event
  outcome : Outcome
  deriving DecidableEq, Repr

/-- Calls to the extraction collaborator, the shell-merge collaborator or
the rename. -/
def Event.isCollab : Event → Bool
  | .mergeShell .. => true
  | .unpackTar .. => true
  | .rename .. => true
  | _ => false

/-- Collaborator calls of a trace, in order. -/
def collabCalls (tr : List Event) : List Event := tr.filter Event.isCollab

/-- Filesystem queries and mutations of a trace, in order. -/
def Event.isFilesystem : Event → Bool
  | .dirExists _ => true
  | .mergeShell .. => true
  | .unpackTar .. => true
  | .rename .. => true
  | _ => false

/-! ## `UnpackTarball` -/

/-- Local variables of `UnpackTarball` once the destination is computed
(line 69). -/
structure Plan where
  Version : Str
  destination : Str
  deriving DecidableEq, Repr

/-- The archive suffix, local `extension`. -/
def extension : Str := ".tar.gz".toList

/-- Lines 32-69 of `UnpackTarball`: base directory check, version detection,
flag exclusivity, version choice and destination. -/
def resolvePlan (env : Env) (r : Request) : List Event × Except Outcome Plan :=
  if env.DirExists r.Basedir = false then
    ([.dirExists r.Basedir],
      .error (.exit 1 ["Directory ".toList ++ r.Basedir ++ " does not exist.".toList,
        "You should create it or provide an alternate base directory using --sandbox-binary".toList]))
  else
    let verList := FindAllStringSubmatch r.tarball
    match (index0 verList).bind index0 with
    | none =>
      ([.dirExists r.Basedir], .error (.panic "runtime error: index out of range".toList))
    | some detectedVersion =>
      if r.isShell = false ∧ r.target ≠ [] then
        ([.dirExists r.Basedir],
          .error (.exit 1 ["unpack: Option --target-server can only be used with --shell".toList]))
      else
        let Version := if r.Version = [] then detectedVersion else r.Version
        if Version = [] then
          ([.dirExists r.Basedir],
            .error (.exit 1 ["unpack: No version was detected from tarball name. ".toList,
              "Flag --unpack-version becomes mandatory".toList]))
        else
          -- the result of `common.VersionToPort(Version)` is discarded
          let destination :=
            if r.target ≠ [] then r.Basedir ++ '/' :: r.target
            else r.Basedir ++ '/' :: (r.Prefix ++ Version)
          ([.dirExists r.Basedir, .versionToPort Version], .ok ⟨Version, destination⟩)

/-- Lines 87-96: extraction into the base directory, then the rename of
`Basedir/barename` when it differs from the destination. -/
def extractAndRename (env : Env) (r : Request) (p : Plan) (barename : Str)
    (tr : List Event) : Run :=
  let tr := tr ++ [.print ("Unpacking tarball ".toList ++ r.tarball ++ " to ".toList
      ++ env.ReplaceLiteralHome p.destination ++ "\n".toList),
    .unpackTar r.tarball r.Basedir r.verbosity]
  match env.UnpackTar r.tarball r.Basedir r.verbosity with
  | some err => ⟨tr, .exit 1 [err]⟩
  | none =>
    let finalName := r.Basedir ++ '/' :: barename
    if finalName ≠ p.destination then
      let tr := tr ++ [.print ("Renaming directory ".toList ++ finalName ++ " to ".toList
          ++ p.destination ++ "\n".toList),
        .rename finalName p.destination]
      match env.Rename finalName p.destination with
      | some err => ⟨tr, .exit 1 [err]⟩
      | none => ⟨tr, .done⟩
    else ⟨tr, .done⟩

/-- Lines 81-96: the shell merge when `--shell` is given; the `if` block has no
`return`, so after a successful merge control continues with the extraction. -/
def coordinate (env : Env) (r : Request) (p : Plan) (barename : Str)
    (tr : List Event) : Run :=
  if r.isShell then
    let tr := tr ++ [.print ("Merging shell tarball ".toList ++ env.ReplaceLiteralHome r.tarball
        ++ " to ".toList ++ env.ReplaceLiteralHome p.destination ++ "\n".toList),
      .mergeShell r.tarball r.Basedir p.destination barename r.verbosity]
    match env.MergeShell r.tarball r.Basedir p.destination barename r.verbosity with
    | some err =>
      ⟨tr, .exit 1 ["Error while unpacking mysql shell tarball : ".toList ++ err]⟩
    | none => extractAndRename env r p barename tr
  else extractAndRename env r p barename tr

/-- Lines 73-80: the local `barename`; `none` is the slice-bounds panic, the
error is the exit on a wrong extension. -/
def barenameOf (tarball : Str) : Except Outcome (Option Str) :=
  let extracted := Base tarball
  if HasSuffix tarball extension then
    .ok (sliceTo extracted ((extracted.length : Int) - (extension.length : Int)))
  else .error (.exit 1 ["Tarball extension must be .tar.gz".toList])

/-- Embedding of `UnpackTarball(cmd, args)`. -/
def UnpackTarball (env : Env) (r : Request) : Run :=
  match resolvePlan env r with
  | (tr, .error o) => ⟨tr, o⟩
  | (tr, .ok p) =>
    let tr := tr ++ [.dirExists p.destination]
    if env.DirExists p.destination && !r.isShell then
      ⟨tr, .exit 1 ["Destination directory ".toList ++ p.destination ++ " exists already\n".toList]⟩
    else
      match barenameOf r.tarball with
      | .error o => ⟨tr, o⟩
      | .ok none => ⟨tr, .panic "runtime error: slice bounds out of range".toList⟩
      | .ok (some barename) => coordinate env r p barename tr

/-! ## Concrete collaborators used in examples -/

/-- A world where exactly the directories listed exist and every collaborator
succeeds; `VersionToPort` accepts a string exactly when the whole of it is one
dotted triple of digits. -/
def envWith (dirs : List Str) : Env where
  DirExists := fun p => decide (p ∈ dirs)
  VersionToPort := fun v =>
    match matchAt v with
    | some (_, []) => .ok 0
    | _ => .error ("bad version".toList)
  ReplaceLiteralHome := fun s => s
  MergeShell := fun _ _ _ _ _ => none
  UnpackTar := fun _ _ _ => none
  Rename := fun _ _ => none

/-- The base directory of the documented examples. -/
def optMysql : Str := "/opt/mysql".toList

/-- Example of the command's help text: `dbdeployer unpack mysql-8.0.4-rc-linux-glibc2.12-x86_64.tar.gz`. -/
def reqMysql804 : Request :=
  ⟨optMysql, 1, "mysql-8.0.4-rc-linux-glibc2.12-x86_64.tar.gz".toList, false, [], [], []⟩

/-- Example of the command's help text: `dbdeployer unpack --prefix=ps Percona-Server-5.7.21-linux.tar.gz`. -/
def reqPercona : Request :=
  ⟨optMysql, 1, "Percona-Server-5.7.21-linux.tar.gz".toList, false, [], [], "ps".toList⟩

/-- Example of the command's help text:
`dbdeployer unpack --unpack-version=8.0.18 --prefix=bld mysql-mybuild.tar.gz`. -/
def reqMybuild : Request :=
  ⟨optMysql, 1, "mysql-mybuild.tar.gz".toList, false, [], "8.0.18".toList, "bld".toList⟩

/-- The request `dbdeployer unpack mysql-mybuild.tar.gz`: no version anywhere. -/
def reqNoVersion : Request :=
  ⟨optMysql, 1, "mysql-mybuild.tar.gz".toList, false, [], [], []⟩

/-- The request `dbdeployer unpack /opt/5.7.21/mysql-8.0.4.tar.gz`: a version-like
directory name in front of the file name. -/
def reqVersionedDir : Request :=
  ⟨optMysql, 1, "/opt/5.7.21/mysql-8.0.4.tar.gz".toList, false, [], [], []⟩

/-- The request `dbdeployer unpack --shell mysql-shell-8.0.17-linux-glibc2.12-x86-64bit.tar.gz`. -/
def reqShell : Request :=
  ⟨optMysql, 1, "mysql-shell-8.0.17-linux-glibc2.12-x86-64bit.tar.gz".toList, true, [], [], []⟩

/-- The request
`dbdeployer unpack --target-server=8.0.17 --unpack-version=8.0.17 mysql-shell.tar.gz`:
a target override without `--shell`, and no dotted triple in the archive path. -/
def reqTargetNoShell : Request :=
  ⟨optMysql, 1, "mysql-shell.tar.gz".toList, false, "8.0.17".toList, "8.0.17".toList, []⟩

/-- The request `dbdeployer unpack --unpack-version=8.0 mysql-5.7.21.tar.gz`: an
explicit version that is not a dotted triple. -/
def reqBadVersion : Request :=
  ⟨optMysql, 1, "mysql-5.7.21.tar.gz".toList, false, [], "8.0".toList, []⟩

/-- The request `dbdeployer unpack 5.7.21/.tar.gz`: an archive whose file name is
the bare suffix. -/
def reqBareSuffix : Request :=
  ⟨optMysql, 1, "5.7.21/.tar.gz".toList, false, [], [], []⟩

/-- The process ended abnormally: a non-zero exit code or a panic. -/
def Outcome.isFailure : Outcome → Bool
  | .done => false
  | .exit code _ => decide (code ≠ 0)
  | .panic _ => true

/-! ## Specification-side predicates -/

/-- The language of the regular expression `\d+\.\d+\.\d+`: three non-empty
runs of digits separated by single dots. -/
def IsTriple (m : Str) : Prop :=
  ∃ d1 d2 d3 : Str, d1 ≠ [] ∧ d2 ≠ [] ∧ d3 ≠ [] ∧
    (∀ c ∈ d1, isDigit c = true) ∧ (∀ c ∈ d2, isDigit c = true) ∧
    (∀ c ∈ d3, isDigit c = true) ∧ m = d1 ++ '.' :: (d2 ++ '.' :: d3)

/-- The part of a path after its last slash. -/
def lastElem (t : Str) : Str := (t.reverse.takeWhile (fun c => c != '/')).reverse

/-- Messages of the exit taken when the base directory is missing (lines 36-38). -/
def missingBasedirMsgs (basedir : Str) : List Str :=
  ["Directory ".toList ++ basedir ++ " does not exist.".toList,
    "You should create it or provide an alternate base directory using --sandbox-binary".toList]

/-- Message of the exit taken on `--target-server` without `--shell` (lines 49-50). -/
def targetWithoutShellMsgs : List Str :=
  ["unpack: Option --target-server can only be used with --shell".toList]

/-- Messages of the exit taken when no version is known (lines 58-60). -/
def missingVersionMsgs : List Str :=
  ["unpack: No version was detected from tarball name. ".toList,
    "Flag --unpack-version becomes mandatory".toList]

/-- Message of the exit taken when the destination exists already (line 71). -/
def destinationExistsMsgs (destination : Str) : List Str :=
  ["Destination directory ".toList ++ destination ++ " exists already\n".toList]

/-- Message of the exit taken on a wrong archive suffix (line 79). -/
def badExtensionMsgs : List Str := ["Tarball extension must be .tar.gz".toList]

/-- The run-time panic of `verList[0]` on an empty match list (line 43). -/
def indexPanic : Outcome := .panic "runtime error: index out of range".toList

/-- The value of `destination` after lines 66-69. -/
def destinationOf (r : Request) (version : Str) : Str :=
  if r.target ≠ [] then r.Basedir ++ '/' :: r.target
  else r.Basedir ++ '/' :: (r.Prefix ++ version)

/-- A string contains a dotted triple of digits somewhere. -/
def ContainsTriple (s : Str) : Prop :=
  ∃ pre m post : Str, s = pre ++ (m ++ post) ∧ IsTriple m

/-- The string `v` is the leftmost occurrence of a dotted triple in `s`, and the
longest one starting at that position. -/
def IsFirstTriple (s v : Str) : Prop :=
  ∃ pre post : Str, s = pre ++ (v ++ post) ∧ IsTriple v ∧
    ∀ pre' m' post' : Str, s = pre' ++ (m' ++ post') → IsTriple m' →
      pre.length < pre'.length ∨ (pre' = pre ∧ m'.length ≤ v.length)

/-- A proper name of a directory entry: not empty, without a slash, and not one
of the special names `.` and `..`. -/
def isEntryName (n : Str) : Bool :=
  decide (n ≠ []) && decide ('/' ∉ n) && decide (n ≠ ['.']) && decide (n ≠ ['.', '.'])

/-- The path `p` names a direct child of the directory `dir`: it is `dir`, a
slash, and a proper entry name. -/
def NamesDirectChild (dir p : Str) : Prop :=
  ∃ n : Str, isEntryName n = true ∧ p = dir ++ '/' :: n

/-! ## Lemmas on the regular expression matcher -/

theorem span_isDigit_spec (s : Str) :
    s = (s.span isDigit).1 ++ (s.span isDigit).2 ∧
    (∀ c ∈ (s.span isDigit).1, isDigit c = true) ∧
    (∀ c r, (s.span isDigit).2 = c :: r → isDigit c = false) := by
  rw [List.span_eq_take_drop]
  refine ⟨(List.takeWhile_append_dropWhile _ _).symm, ?_, ?_⟩
  · intro c hc
    exact List.mem_takeWhile_imp hc
  · intro c r h
    induction s with
    | nil => simp at h
    | cons a t ih =>
      by_cases ha : isDigit a = true
      · simp only [List.dropWhile_cons, ha, if_true] at h
        exact ih h
      · simp only [List.dropWhile_cons, ha] at h
        simp at h
        rw [← h.1]
        simpa using ha

theorem span_isDigit_append (d : Str) (c : Char) (r : Str)
    (hd : ∀ x ∈ d, isDigit x = true) (hc : isDigit c = false) :
    (d ++ c :: r).span isDigit = (d, c :: r) := by
  rw [List.span_eq_take_drop]
  induction d with
  | nil => simp [List.takeWhile_cons, List.dropWhile_cons, hc]
  | cons a t ih =>
    have ha : isDigit a = true := hd a (List.mem_cons_self _ _)
    have ht : ∀ x ∈ t, isDigit x = true := fun x hx => hd x (List.mem_cons_of_mem _ hx)
    have := ih ht
    simp only [List.cons_append, List.takeWhile_cons, List.dropWhile_cons, ha, if_true]
    simp only [Prod.mk.injEq] at this ⊢
    exact ⟨by rw [this.1], this.2⟩

theorem isDigit_dot : isDigit '.' = false := by decide

theorem span_isDigit_run (d r : Str) (hd : ∀ x ∈ d, isDigit x = true) :
    (d ++ r).span isDigit = (d ++ (r.span isDigit).1, (r.span isDigit).2) := by
  simp only [List.span_eq_take_drop]
  induction d with
  | nil => simp
  | cons a t ih =>
    have ha : isDigit a = true := hd a (List.mem_cons_self _ _)
    have ht : ∀ x ∈ t, isDigit x = true := fun x hx => hd x (List.mem_cons_of_mem _ hx)
    have := ih ht
    simp only [List.cons_append, List.takeWhile_cons, List.dropWhile_cons, ha, if_true]
    simp only [Prod.mk.injEq] at this ⊢
    exact ⟨by rw [this.1], this.2⟩

/-- Soundness of the anchored matcher: what it returns is a prefix of the input,
belongs to the language of the expression, and cannot be extended by a digit. -/
theorem matchAt_sound (s m r : Str) (h : matchAt s = some (m, r)) :
    s = m ++ r ∧ IsTriple m ∧ (∀ c r', r = c :: r' → isDigit c = false) := by
  unfold matchAt at h
  split at h
  · exact absurd h (by simp)
  · rename_i d1 r1 hne1 h1
    split at h
    · exact absurd h (by simp)
    · rename_i d2 r2 hne2 h2
      split at h
      · exact absurd h (by simp)
      · rename_i d3 r3 hne3 h3
        simp only [Option.some.injEq, Prod.mk.injEq] at h
        obtain ⟨hm, hr⟩ := h
        have s1 := span_isDigit_spec s
        have s2 := span_isDigit_spec r1
        have s3 := span_isDigit_spec r2
        rw [h1] at s1
        rw [h2] at s2
        rw [h3] at s3
        simp only at s1 s2 s3
        subst hr
        refine ⟨?_, ⟨d1, d2, d3, ?_, ?_, ?_, s1.2.1, s2.2.1, s3.2.1, hm.symm⟩, s3.2.2⟩
        · rw [← hm, s1.1, s2.1, s3.1]
          simp
        · exact hne1
        · exact hne2
        · exact hne3
    · exact absurd h (by simp)
  · exact absurd h (by simp)

/-- Completeness and greediness of the anchored matcher: when some prefix of the
input belongs to the language, the matcher succeeds and returns an extension of
that prefix. -/
theorem matchAt_complete (m' r' : Str) (hm : IsTriple m') :
    ∃ e r, matchAt (m' ++ r') = some (m' ++ e, r) ∧ r' = e ++ r := by
  obtain ⟨d1, d2, d3, n1, n2, n3, g1, g2, g3, rfl⟩ := hm
  obtain ⟨a1, t1, rfl⟩ := List.exists_cons_of_ne_nil n1
  obtain ⟨a2, t2, rfl⟩ := List.exists_cons_of_ne_nil n2
  obtain ⟨a3, t3, rfl⟩ := List.exists_cons_of_ne_nil n3
  refine ⟨(r'.span isDigit).1, (r'.span isDigit).2, ?_, (span_isDigit_spec r').1⟩
  have h1 : ((a1 :: t1) ++ '.' :: ((a2 :: t2) ++ '.' :: (a3 :: t3)) ++ r').span isDigit
      = (a1 :: t1, '.' :: ((a2 :: t2) ++ '.' :: ((a3 :: t3) ++ r'))) := by
    have := span_isDigit_append (a1 :: t1) '.' ((a2 :: t2) ++ '.' :: ((a3 :: t3) ++ r')) g1
      isDigit_dot
    simpa using this
  have h2 : ((a2 :: t2) ++ '.' :: ((a3 :: t3) ++ r')).span isDigit
      = (a2 :: t2, '.' :: ((a3 :: t3) ++ r')) :=
    span_isDigit_append (a2 :: t2) '.' ((a3 :: t3) ++ r') g2 isDigit_dot
  have h3 : ((a3 :: t3) ++ r').span isDigit
      = ((a3 :: t3) ++ (r'.span isDigit).1, (r'.span isDigit).2) :=
    span_isDigit_run (a3 :: t3) r' g3
  unfold matchAt
  rw [h1]
  simp only
  rw [h2]
  simp only
  rw [h3]
  simp

theorem matchAt_nil : matchAt [] = none := by decide

/-- Reading `verList[0][0]` is reading the first element of the match list. -/
theorem detected_eq (s : Str) :
    (index0 (FindAllStringSubmatch s)).bind index0 = index0 (findAllAux 0 s) := by
  unfold FindAllStringSubmatch
  cases findAllAux 0 s <;> rfl

/-- The first reported match starts at the first position where the anchored
matcher succeeds, and is what the matcher returns there. -/
theorem findAll_head_some (s v : Str) (h : index0 (findAllAux 0 s) = some v) :
    ∃ pre post, s = pre ++ (v ++ post) ∧ matchAt (v ++ post) = some (v, post) ∧
      ∀ pre' t, s = pre' ++ t → pre'.length < pre.length → matchAt t = none := by
  induction s with
  | nil => simp [findAllAux, index0] at h
  | cons c cs ih =>
    cases hm : matchAt (c :: cs) with
    | some mr =>
      obtain ⟨m, r⟩ := mr
      simp only [findAllAux, hm, index0, Option.some.injEq] at h
      subst h
      have hs := (matchAt_sound _ _ _ hm).1
      refine ⟨[], r, by simpa using hs, by rw [← hs]; exact hm, ?_⟩
      intro pre' t _ hlt
      simp at hlt
    | none =>
      simp only [findAllAux, hm] at h
      obtain ⟨pre, post, hs, hmt, hmin⟩ := ih h
      refine ⟨c :: pre, post, by rw [hs]; rfl, hmt, ?_⟩
      intro pre' t ht hlt
      cases pre' with
      | nil =>
        simp only [List.nil_append] at ht
        rw [← ht]
        exact hm
      | cons a p =>
        simp only [List.cons_append, List.cons.injEq] at ht
        exact hmin p t ht.2 (by simpa using hlt)

/-- No reported match means the anchored matcher fails at every position. -/
theorem findAll_head_none (s : Str) (h : index0 (findAllAux 0 s) = none) :
    ∀ pre t, s = pre ++ t → matchAt t = none := by
  induction s with
  | nil =>
    intro pre t ht
    have : t = [] := by
      have := congrArg List.length ht
      simp at this
      exact List.eq_nil_of_length_eq_zero (by omega)
    rw [this]
    exact matchAt_nil
  | cons c cs ih =>
    cases hm : matchAt (c :: cs) with
    | some mr =>
      obtain ⟨m, r⟩ := mr
      simp [findAllAux, hm, index0] at h
    | none =>
      simp only [findAllAux, hm] at h
      intro pre t ht
      cases pre with
      | nil =>
        simp only [List.nil_append] at ht
        rw [← ht]
        exact hm
      | cons a p =>
        simp only [List.cons_append, List.cons.injEq] at ht
        exact ih h p t ht.2

/-- A string that contains a dotted triple has a first reported match. -/
theorem findAll_head_of_contains (pre m post : Str) (hm : IsTriple m) :
    ∃ v, index0 (findAllAux 0 (pre ++ (m ++ post))) = some v := by
  cases h : index0 (findAllAux 0 (pre ++ (m ++ post))) with
  | some v => exact ⟨v, rfl⟩
  | none =>
    have := findAll_head_none _ h pre (m ++ post) rfl
    obtain ⟨e, r, he, _⟩ := matchAt_complete m post hm
    rw [he] at this
    exact absurd this (by simp)

/-- The first reported match is the leftmost occurrence of a dotted triple, and
the longest one starting there. -/
theorem findAll_head_leftmost (s v : Str) (h : index0 (findAllAux 0 s) = some v) :
    ∃ pre post, s = pre ++ (v ++ post) ∧ IsTriple v ∧
      ∀ pre' m' post', s = pre' ++ (m' ++ post') → IsTriple m' →
        pre.length < pre'.length ∨ (pre' = pre ∧ m'.length ≤ v.length) := by
  obtain ⟨pre, post, hs, hmt, hmin⟩ := findAll_head_some s v h
  refine ⟨pre, post, hs, (matchAt_sound _ _ _ hmt).2.1, ?_⟩
  intro pre' m' post' hs' hm'
  obtain ⟨e, r, he, _⟩ := matchAt_complete m' post' hm'
  rcases Nat.lt_trichotomy pre'.length pre.length with hlt | heq | hgt
  · have := hmin pre' (m' ++ post') hs' hlt
    rw [he] at this
    exact absurd this (by simp)
  · right
    have hh : pre' ++ (m' ++ post') = pre ++ (v ++ post) := by rw [← hs', ← hs]
    obtain ⟨hp, hrest⟩ := List.append_inj hh heq
    refine ⟨hp, ?_⟩
    rw [hrest, hmt] at he
    simp only [Option.some.injEq, Prod.mk.injEq] at he
    rw [he.1]
    simp
  · exact Or.inl hgt

/-! ## Lemmas on suffixes and `path.Base` -/

theorem hasSuffix_iff (s suf : Str) : HasSuffix s suf = true ↔ ∃ t, s = t ++ suf := by
  unfold HasSuffix
  constructor
  · intro h
    simp only [Bool.and_eq_true, decide_eq_true_eq, beq_iff_eq] at h
    refine ⟨s.take (s.length - suf.length), ?_⟩
    conv_lhs => rw [← List.take_append_drop (s.length - suf.length) s]
    rw [h.2]
  · rintro ⟨t, rfl⟩
    simp

theorem lastElem_no_slash (t : Str) : '/' ∉ lastElem t := by
  unfold lastElem
  intro h
  rw [List.mem_reverse] at h
  have := List.mem_takeWhile_imp h
  simp at this

theorem base_of_suffix (t : Str) : Base (t ++ extension) = lastElem t ++ extension := by
  unfold Base lastElem extension
  have hne : t ++ ".tar.gz".toList ≠ [] := by simp
  rw [if_neg hne]
  have hrev : (t ++ ".tar.gz".toList).reverse
      = 'z' :: 'g' :: '.' :: 'r' :: 'a' :: 't' :: '.' :: t.reverse := by
    simp
  simp only [hrev, stripSlashes, List.reverse_reverse]
  have htw : List.takeWhile (fun c => c != '/')
      ('z' :: 'g' :: '.' :: 'r' :: 'a' :: 't' :: '.' :: t.reverse)
      = 'z' :: 'g' :: '.' :: 'r' :: 'a' :: 't' :: '.' ::
        List.takeWhile (fun c => c != '/') t.reverse := by
    simp [List.takeWhile_cons]
  rw [htw]
  simp

theorem isTriple_ne_nil (m : Str) (h : IsTriple m) : m ≠ [] := by
  obtain ⟨d1, d2, d3, n1, _, _, _, _, _, rfl⟩ := h
  simp

theorem isFirstTriple_of_head (s v : Str) (h : index0 (findAllAux 0 s) = some v) :
    IsFirstTriple s v :=
  findAll_head_leftmost s v h

theorem head_of_containsTriple (s : Str) (h : ContainsTriple s) :
    ∃ v, index0 (findAllAux 0 s) = some v := by
  obtain ⟨pre, m, post, rfl, hm⟩ := h
  exact findAll_head_of_contains pre m post hm

theorem head_none_of_not_contains (s : Str) (h : ¬ ContainsTriple s) :
    index0 (findAllAux 0 s) = none := by
  cases hv : index0 (findAllAux 0 s) with
  | none => rfl
  | some v =>
    obtain ⟨pre, post, hs, hm, _⟩ := findAll_head_leftmost s v hv
    exact absurd ⟨pre, v, post, hs, hm⟩ h

/-! ## The four ways `resolvePlan` can end -/

theorem resolvePlan_no_basedir (env : Env) (r : Request)
    (hb : env.DirExists r.Basedir = false) :
    resolvePlan env r
      = ([.dirExists r.Basedir], .error (.exit 1 (missingBasedirMsgs r.Basedir))) := by
  unfold resolvePlan
  rw [if_pos hb]
  rfl

theorem resolvePlan_no_match (env : Env) (r : Request)
    (hb : env.DirExists r.Basedir = true) (hv : index0 (findAllAux 0 r.tarball) = none) :
    resolvePlan env r = ([.dirExists r.Basedir], .error indexPanic) := by
  unfold resolvePlan
  rw [if_neg (by simp [hb])]
  simp only [detected_eq, hv]
  rfl

theorem resolvePlan_target_without_shell (env : Env) (r : Request) (v : Str)
    (hb : env.DirExists r.Basedir = true) (hv : index0 (findAllAux 0 r.tarball) = some v)
    (hs : r.isShell = false) (ht : r.target ≠ []) :
    resolvePlan env r
      = ([.dirExists r.Basedir], .error (.exit 1 targetWithoutShellMsgs)) := by
  unfold resolvePlan
  rw [if_neg (by simp [hb])]
  simp only [detected_eq, hv]
  rw [if_pos ⟨hs, ht⟩]
  rfl

theorem resolvePlan_ok (env : Env) (r : Request) (v : Str)
    (hb : env.DirExists r.Basedir = true) (hv : index0 (findAllAux 0 r.tarball) = some v)
    (hf : r.isShell = true ∨ r.target = []) :
    resolvePlan env r
      = ([.dirExists r.Basedir, .versionToPort (if r.Version = [] then v else r.Version)],
          .ok ⟨if r.Version = [] then v else r.Version,
            destinationOf r (if r.Version = [] then v else r.Version)⟩) := by
  have hvne : v ≠ [] := isTriple_ne_nil v (findAll_head_leftmost _ _ hv).choose_spec.choose_spec.2.1
  have hne : (if r.Version = [] then v else r.Version) ≠ [] := by
    split
    · exact hvne
    · assumption
  have hflag : ¬ (r.isShell = false ∧ r.target ≠ []) := by
    rintro ⟨h1, h2⟩
    rcases hf with h | h
    · rw [h] at h1
      exact absurd h1 (by simp)
    · exact h2 h
  unfold resolvePlan
  rw [if_neg (by simp [hb])]
  simp only [detected_eq, hv]
  rw [if_neg hflag, if_neg hne]
  rfl

/-- Every plan that `resolvePlan` produces comes from the fourth case. -/
theorem resolvePlan_ok_inv (env : Env) (r : Request) (tr : List Event) (p : Plan)
    (h : resolvePlan env r = (tr, .ok p)) :
    env.DirExists r.Basedir = true ∧ (r.isShell = true ∨ r.target = []) ∧
    ∃ v, index0 (findAllAux 0 r.tarball) = some v ∧
      p.Version = (if r.Version = [] then v else r.Version) ∧
      p.destination = destinationOf r p.Version ∧
      tr = [.dirExists r.Basedir, .versionToPort p.Version] := by
  cases hb : env.DirExists r.Basedir with
  | false =>
    rw [resolvePlan_no_basedir env r hb] at h
    simp at h
  | true =>
    cases hv : index0 (findAllAux 0 r.tarball) with
    | none =>
      rw [resolvePlan_no_match env r hb hv] at h
      simp at h
    | some v =>
      by_cases hf : r.isShell = true ∨ r.target = []
      · rw [resolvePlan_ok env r v hb hv hf] at h
        simp only [Prod.mk.injEq, Except.ok.injEq] at h
        obtain ⟨h1, h2⟩ := h
        subst h2
        exact ⟨rfl, hf, v, rfl, rfl, rfl, h1.symm⟩
      · have hs : r.isShell = false := by
          cases hh : r.isShell with
          | false => rfl
          | true => exact absurd (Or.inl hh) hf
        have ht : r.target ≠ [] := fun e => hf (Or.inr e)
        rw [resolvePlan_target_without_shell env r v hb hv hs ht] at h
        simp at h

/-- A run that stops inside `resolvePlan` has made no collaborator call and has
not returned normally. -/
theorem resolvePlan_error (env : Env) (r : Request) (tr : List Event) (o : Outcome)
    (h : resolvePlan env r = (tr, .error o)) :
    tr = [.dirExists r.Basedir] ∧ o ≠ .done := by
  cases hb : env.DirExists r.Basedir with
  | false =>
    rw [resolvePlan_no_basedir env r hb] at h
    simp only [Prod.mk.injEq, Except.error.injEq] at h
    exact ⟨h.1.symm, by rw [← h.2]; simp⟩
  | true =>
    cases hv : index0 (findAllAux 0 r.tarball) with
    | none =>
      rw [resolvePlan_no_match env r hb hv] at h
      simp only [Prod.mk.injEq, Except.error.injEq] at h
      exact ⟨h.1.symm, by rw [← h.2]; simp [indexPanic]⟩
    | some v =>
      by_cases hf : r.isShell = true ∨ r.target = []
      · rw [resolvePlan_ok env r v hb hv hf] at h
        simp at h
      · have hs : r.isShell = false := by
          cases hh : r.isShell with
          | false => rfl
          | true => exact absurd (Or.inl hh) hf
        have ht : r.target ≠ [] := fun e => hf (Or.inr e)
        rw [resolvePlan_target_without_shell env r v hb hv hs ht] at h
        simp only [Prod.mk.injEq, Except.error.injEq] at h
        exact ⟨h.1.symm, by rw [← h.2]; simp⟩

/-! ## Unfolding `UnpackTarball` after `resolvePlan` -/

theorem unpackTarball_of_error (env : Env) (r : Request) (tr : List Event) (o : Outcome)
    (h : resolvePlan env r = (tr, .error o)) : UnpackTarball env r = ⟨tr, o⟩ := by
  unfold UnpackTarball
  rw [h]

theorem unpackTarball_of_conflict (env : Env) (r : Request) (tr : List Event) (p : Plan)
    (h : resolvePlan env r = (tr, .ok p))
    (hc : (env.DirExists p.destination && !r.isShell) = true) :
    UnpackTarball env r
      = ⟨tr ++ [.dirExists p.destination], .exit 1 (destinationExistsMsgs p.destination)⟩ := by
  unfold UnpackTarball
  rw [h]
  simp only [hc, if_true]
  rfl

theorem unpackTarball_of_free (env : Env) (r : Request) (tr : List Event) (p : Plan)
    (h : resolvePlan env r = (tr, .ok p))
    (hc : (env.DirExists p.destination && !r.isShell) = false) :
    UnpackTarball env r =
      match barenameOf r.tarball with
      | .error o => ⟨tr ++ [.dirExists p.destination], o⟩
      | .ok none =>
        ⟨tr ++ [.dirExists p.destination], .panic "runtime error: slice bounds out of range".toList⟩
      | .ok (some barename) => coordinate env r p barename (tr ++ [.dirExists p.destination]) := by
  unfold UnpackTarball
  rw [h]
  simp only [hc]
  rfl

theorem barenameOf_bad_suffix (tarball : Str) (h : HasSuffix tarball extension = false) :
    barenameOf tarball = .error (.exit 1 badExtensionMsgs) := by
  unfold barenameOf
  simp only [h]
  rfl

theorem barenameOf_suffix (t : Str) :
    barenameOf (t ++ extension) = .ok (some (lastElem t)) := by
  have hs : HasSuffix (t ++ extension) extension = true := (hasSuffix_iff _ _).2 ⟨t, rfl⟩
  unfold barenameOf
  simp only [hs, if_true, base_of_suffix]
  unfold sliceTo
  have hlen : ((lastElem t ++ extension).length : Int) - (extension.length : Int)
      = ((lastElem t).length : Int) := by
    simp
  rw [hlen, if_pos ⟨by omega, by simp⟩]
  simp

/-! ## Destination (C1) -/

/-- C1: whenever `UnpackTarball` computes a destination, it is
`baseDir + "/" + prefix + version` when the target override is empty and
`baseDir + "/" + target` when a target override is given (which then implies shell
mode); a destination is computed for every request with an existing base
directory, a dotted triple in the archive path and a legal flag combination; and
the two documented examples give `/opt/mysql/8.0.4` and `/opt/mysql/ps5.7.21`. -/
theorem destination_formula :
    (∀ (env : Env) (r : Request) (tr : List Event) (p : Plan),
      resolvePlan env r = (tr, .ok p) →
        (r.target = [] → p.destination = r.Basedir ++ "/".toList ++ (r.Prefix ++ p.Version)) ∧
        (r.target ≠ [] →
          r.isShell = true ∧ p.destination = r.Basedir ++ "/".toList ++ r.target)) ∧
    (∀ (env : Env) (r : Request), env.DirExists r.Basedir = true →
      ContainsTriple r.tarball → (r.isShell = true ∨ r.target = []) →
        ∃ tr p, resolvePlan env r = (tr, .ok p)) ∧
    (∀ env : Env, env.DirExists optMysql = true →
      (resolvePlan env reqMysql804).2 = .ok ⟨"8.0.4".toList, "/opt/mysql/8.0.4".toList⟩) ∧
    (∀ env : Env, env.DirExists optMysql = true →
      (resolvePlan env reqPercona).2 = .ok ⟨"5.7.21".toList, "/opt/mysql/ps5.7.21".toList⟩) := by
  refine ⟨?_, ?_, ?_, ?_⟩
  · intro env r tr p h
    obtain ⟨_, hf, v, _, _, hd, _⟩ := resolvePlan_ok_inv env r tr p h
    constructor
    · intro ht
      rw [hd]
      simp [destinationOf, ht]
    · intro ht
      refine ⟨?_, ?_⟩
      · rcases hf with hf | hf
        · exact hf
        · exact absurd hf ht
      · rw [hd]
        simp [destinationOf, ht]
  · intro env r hb hc hf
    obtain ⟨v, hv⟩ := head_of_containsTriple _ hc
    exact ⟨_, _, resolvePlan_ok env r v hb hv hf⟩
  · intro env hb
    have hv : index0 (findAllAux 0 reqMysql804.tarball) = some "8.0.4".toList := by decide
    rw [resolvePlan_ok env reqMysql804 _ hb hv (Or.inr rfl)]
    have hd : destinationOf reqMysql804 "8.0.4".toList = "/opt/mysql/8.0.4".toList := by decide
    simp [reqMysql804, hd]
    exact hd
  · intro env hb
    have hv : index0 (findAllAux 0 reqPercona.tarball) = some "5.7.21".toList := by decide
    rw [resolvePlan_ok env reqPercona _ hb hv (Or.inr rfl)]
    have hd : destinationOf reqPercona "5.7.21".toList = "/opt/mysql/ps5.7.21".toList := by decide
    simp [reqPercona, hd]
    exact hd

/-- Witness for C1: the Percona example, run in a world where only `/opt/mysql`
exists. -/
theorem destination_formula_witness :
    resolvePlan (envWith [optMysql]) reqPercona
        = ([.dirExists optMysql, .versionToPort "5.7.21".toList],
            .ok ⟨"5.7.21".toList, "/opt/mysql/ps5.7.21".toList⟩) ∧
      "/opt/mysql/ps5.7.21".toList = optMysql ++ "/".toList ++ ("ps".toList ++ "5.7.21".toList) :=
  ⟨rfl, (destination_formula.1 (envWith [optMysql]) reqPercona
    [.dirExists optMysql, .versionToPort "5.7.21".toList]
    ⟨"5.7.21".toList, "/opt/mysql/ps5.7.21".toList⟩ rfl).1 rfl⟩

/-! ## Runs on archive paths without a dotted triple (C2, C3) -/

theorem not_containsTriple_of_head_none (s : Str) (h : index0 (findAllAux 0 s) = none) :
    ¬ ContainsTriple s := by
  intro hc
  obtain ⟨v, hv⟩ := head_of_containsTriple s hc
  rw [h] at hv
  exact absurd hv (by simp)

/-- With an existing base directory and no dotted triple in the archive path,
the run ends in the index panic of line 43, whatever the flags. -/
theorem unpackTarball_no_triple (env : Env) (r : Request)
    (hb : env.DirExists r.Basedir = true) (hn : ¬ ContainsTriple r.tarball) :
    UnpackTarball env r = ⟨[.dirExists r.Basedir], indexPanic⟩ :=
  unpackTarball_of_error env r _ _
    (resolvePlan_no_match env r hb (head_none_of_not_contains _ hn))

theorem unpackTarball_no_basedir (env : Env) (r : Request)
    (hb : env.DirExists r.Basedir = false) :
    UnpackTarball env r = ⟨[.dirExists r.Basedir], .exit 1 (missingBasedirMsgs r.Basedir)⟩ :=
  unpackTarball_of_error env r _ _ (resolvePlan_no_basedir env r hb)

theorem mybuild_no_triple : ¬ ContainsTriple "mysql-mybuild.tar.gz".toList :=
  not_containsTriple_of_head_none _ (by decide)

/-- C2: an explicit version overrides the detected one in every plan the code
computes, but the documented example `--unpack-version=8.0.18 --prefix=bld
mysql-mybuild.tar.gz` computes no plan: with the base directory present the run
ends in the index panic of `verList[0][0]`, before the explicit version is read. -/
theorem explicit_version_example_panics :
    (∀ env : Env, env.DirExists optMysql = true →
      UnpackTarball env reqMybuild = ⟨[.dirExists optMysql], indexPanic⟩) ∧
    (∀ (env : Env) (r : Request) (tr : List Event) (p : Plan),
      resolvePlan env r = (tr, .ok p) → r.Version ≠ [] → p.Version = r.Version) := by
  constructor
  · intro env hb
    exact unpackTarball_no_triple env reqMybuild hb mybuild_no_triple
  · intro env r tr p h hne
    obtain ⟨_, _, v, _, hv, _, _⟩ := resolvePlan_ok_inv env r tr p h
    rw [hv, if_neg hne]

/-- Witness for C2: the documented example in a world where `/opt/mysql` exists. -/
theorem explicit_version_example_panics_witness :
    UnpackTarball (envWith [optMysql]) reqMybuild = ⟨[.dirExists optMysql], indexPanic⟩ :=
  explicit_version_example_panics.1 (envWith [optMysql]) (by decide)

/-- C3, as stated, fails: with no version anywhere and the base directory
missing, the run queries the filesystem and ends with the missing-base-directory
error, not with the missing-version error. -/
theorem missing_version_counterexample :
    reqNoVersion.Version = [] ∧ ¬ ContainsTriple reqNoVersion.tarball ∧
    UnpackTarball (envWith []) reqNoVersion
      = ⟨[.dirExists optMysql], .exit 1 (missingBasedirMsgs optMysql)⟩ ∧
    ¬ ((UnpackTarball (envWith []) reqNoVersion).outcome = .exit 1 missingVersionMsgs ∧
        (UnpackTarball (envWith []) reqNoVersion).trace.filter Event.isFilesystem = []) := by
  refine ⟨rfl, mybuild_no_triple, rfl, ?_⟩
  decide

/-- C3 (amended): for every request whose explicit version is empty and whose
archive path contains no dotted triple, the run does not complete successfully
and invokes no extraction, merge or rename; its only filesystem access is the
existence check of the base directory, and when that directory is missing the
run ends with the missing-base-directory error. -/
theorem no_version_never_extracts (env : Env) (r : Request)
    (_hv : r.Version = []) (hn : ¬ ContainsTriple r.tarball) :
    (UnpackTarball env r).outcome ≠ .done ∧
    collabCalls (UnpackTarball env r).trace = [] ∧
    (UnpackTarball env r).trace.filter Event.isFilesystem = [.dirExists r.Basedir] ∧
    (env.DirExists r.Basedir = false →
      (UnpackTarball env r).outcome = .exit 1 (missingBasedirMsgs r.Basedir)) := by
  cases hb : env.DirExists r.Basedir with
  | false =>
    rw [unpackTarball_no_basedir env r hb]
    simp [collabCalls, Event.isCollab, Event.isFilesystem]
  | true =>
    rw [unpackTarball_no_triple env r hb hn]
    simp [collabCalls, Event.isCollab, Event.isFilesystem, indexPanic]

/-- Witness for C3 (amended): `dbdeployer unpack mysql-mybuild.tar.gz` without a
base directory. -/
theorem no_version_never_extracts_witness :
    (UnpackTarball (envWith []) reqNoVersion).outcome ≠ .done ∧
    collabCalls (UnpackTarball (envWith []) reqNoVersion).trace = [] ∧
    (UnpackTarball (envWith []) reqNoVersion).trace.filter Event.isFilesystem
      = [.dirExists reqNoVersion.Basedir] ∧
    ((envWith []).DirExists reqNoVersion.Basedir = false →
      (UnpackTarball (envWith []) reqNoVersion).outcome
        = .exit 1 (missingBasedirMsgs reqNoVersion.Basedir)) :=
  no_version_never_extracts (envWith []) reqNoVersion rfl mybuild_no_triple

/-! ## Detected version (C4) -/

/-- The first dotted triple of a string is unique. -/
theorem isFirstTriple_unique (s v w : Str) (hv : IsFirstTriple s v) (hw : IsFirstTriple s w) :
    v = w := by
  obtain ⟨pre, post, hs, tv, hmin⟩ := hv
  obtain ⟨pre', post', hs', tw, hmin'⟩ := hw
  have h1 := hmin pre' w post' hs' tw
  have h2 := hmin' pre v post hs tv
  rcases h1 with h1 | ⟨e1, l1⟩
  · rcases h2 with h2 | ⟨e2, _⟩
    · omega
    · rw [e2] at h1
      omega
  · rcases h2 with h2 | ⟨_, l2⟩
    · rw [e1] at h2
      omega
    · subst e1
      have hh : v ++ post = w ++ post' := List.append_cancel_left (hs.symm.trans hs')
      exact (List.append_inj hh (by omega)).1

theorem stripSlashes_of_not_slash (c : Char) (cs : Str) (h : c ≠ '/') :
    stripSlashes (c :: cs) = c :: cs := by
  unfold stripSlashes
  split
  · rename_i heq
    simp only [List.cons.injEq] at heq
    exact absurd heq.1 h
  · rfl

/-- On a non-empty path without a slash, `path.Base` is the identity. -/
theorem base_of_no_slash (s : Str) (hne : s ≠ []) (hs : '/' ∉ s) : Base s = s := by
  unfold Base
  rw [if_neg hne]
  have hrne : s.reverse ≠ [] := by simpa using hne
  obtain ⟨c, cs, hr⟩ := List.exists_cons_of_ne_nil hrne
  have hc : c ≠ '/' := by
    intro e
    apply hs
    rw [← List.mem_reverse, hr, e]
    exact List.mem_cons_self _ _
  have htw : List.takeWhile (fun c => c != '/') s.reverse = s.reverse := by
    rw [List.takeWhile_eq_self_iff]
    intro x hx
    have : x ≠ '/' := by
      intro e
      rw [e, List.mem_reverse] at hx
      exact hs hx
    simpa using this
  simp only [hr, stripSlashes_of_not_slash c cs hc, List.reverse_reverse]
  rw [← hr, htw]
  simp [hne]

theorem isTriple_no_slash (m : Str) (h : IsTriple m) : '/' ∉ m := by
  obtain ⟨d1, d2, d3, _, _, _, g1, g2, g3, rfl⟩ := h
  have hd : isDigit '/' = false := by decide
  intro hm
  simp only [List.mem_append, List.mem_cons] at hm
  rcases hm with hm | hm | hm | hm | hm
  · rw [g1 _ hm] at hd
    exact absurd hd (by simp)
  · exact absurd hm (by decide)
  · rw [g2 _ hm] at hd
    exact absurd hd (by simp)
  · exact absurd hm (by decide)
  · rw [g3 _ hm] at hd
    exact absurd hd (by simp)

theorem matchAt_slash (file : Str) : matchAt ('/' :: file) = none := by
  unfold matchAt
  have : List.span isDigit ('/' :: file) = ([], '/' :: file) := by
    rw [List.span_eq_take_drop]
    simp [List.takeWhile_cons, List.dropWhile_cons, show isDigit '/' = false by decide]
  rw [this]
  rfl

/-- No match starts inside a directory part that contains no dotted triple: a
match cannot extend over the slash that ends it. -/
theorem matchAt_dir_none (dir file : Str) (hn : ¬ ContainsTriple dir) :
    matchAt (dir ++ '/' :: file) = none := by
  cases hm : matchAt (dir ++ '/' :: file) with
  | none => rfl
  | some mr =>
    obtain ⟨m, r⟩ := mr
    obtain ⟨hs, ht, _⟩ := matchAt_sound _ _ _ hm
    have hns := isTriple_no_slash m ht
    rcases List.append_eq_append_iff.1 hs with ⟨a, ha, hr⟩ | ⟨c, hc, _⟩
    · cases a with
      | nil =>
        simp only [List.append_nil] at ha
        exact absurd ⟨[], m, [], by simp [ha], ht⟩ hn
      | cons x xs =>
        simp only [List.cons_append, List.cons.injEq] at hr
        exfalso
        apply hns
        rw [ha, hr.1]
        simp
    · exact absurd ⟨[], m, c, by simpa using hc, ht⟩ hn

theorem head_skip_dir (dir file : Str) (hn : ¬ ContainsTriple dir) :
    index0 (findAllAux 0 (dir ++ '/' :: file)) = index0 (findAllAux 0 file) := by
  induction dir with
  | nil =>
    simp only [List.nil_append, findAllAux, matchAt_slash]
  | cons c d ih =>
    have hd : ¬ ContainsTriple d := by
      rintro ⟨pre, m, post, hs, hm⟩
      exact hn ⟨c :: pre, m, post, by rw [hs]; rfl, hm⟩
    have hm := matchAt_dir_none (c :: d) file hn
    simp only [List.cons_append] at hm ⊢
    simp only [findAllAux, hm]
    exact ih hd

/-- The last element of a path: `path.Base` drops everything up to the last
slash. -/
theorem base_of_dir (dir file : Str) (hne : file ≠ []) (hs : '/' ∉ file) :
    Base (dir ++ '/' :: file) = file := by
  unfold Base
  rw [if_neg (by simp)]
  have hrne : file.reverse ≠ [] := by simpa using hne
  obtain ⟨c, cs, hr⟩ := List.exists_cons_of_ne_nil hrne
  have hc : c ≠ '/' := by
    intro e
    apply hs
    rw [← List.mem_reverse, hr, e]
    exact List.mem_cons_self _ _
  have hrev : (dir ++ '/' :: file).reverse = c :: (cs ++ '/' :: dir.reverse) := by
    simp [hr]
  have hall : ∀ x ∈ file.reverse, (x != '/') = true := by
    intro x hx
    have : x ≠ '/' := by
      intro e
      rw [e, List.mem_reverse] at hx
      exact hs hx
    simpa using this
  have htw : List.takeWhile (fun c => c != '/') (file.reverse ++ '/' :: dir.reverse)
      = file.reverse := by
    rw [List.takeWhile_append_of_pos hall]
    simp [List.takeWhile_cons]
  simp only [hrev, stripSlashes_of_not_slash c _ hc, List.reverse_reverse]
  have hback : c :: (cs ++ '/' :: dir.reverse) = file.reverse ++ '/' :: dir.reverse := by
    rw [hr]
    rfl
  rw [hback, htw]
  simp [hne]

/-- C4, as stated, fails: for `/opt/5.7.21/mysql-8.0.4.tar.gz` the file name is
`mysql-8.0.4.tar.gz`, whose first dotted triple is `8.0.4`, but the version the
code chooses is `5.7.21`, found in the directory part of the path. -/
theorem filename_version_counterexample :
    reqVersionedDir.Version = [] ∧
    Base reqVersionedDir.tarball = "mysql-8.0.4.tar.gz".toList ∧
    IsFirstTriple (Base reqVersionedDir.tarball) "8.0.4".toList ∧
    resolvePlan (envWith [optMysql]) reqVersionedDir
      = ([.dirExists optMysql, .versionToPort "5.7.21".toList],
          .ok ⟨"5.7.21".toList, "/opt/mysql/5.7.21".toList⟩) ∧
    ¬ IsFirstTriple (Base reqVersionedDir.tarball) "5.7.21".toList := by
  have hf : IsFirstTriple (Base reqVersionedDir.tarball) "8.0.4".toList :=
    isFirstTriple_of_head _ _ (by decide)
  refine ⟨rfl, by decide, hf, rfl, ?_⟩
  intro h
  have := isFirstTriple_unique _ _ _ h hf
  exact absurd this (by decide)

/-- C4 (amended): with no explicit version, the version chosen by
`UnpackTarball` is the first (leftmost, longest at that position) dotted triple
of the archive path as passed on the command line, directory components
included; such a version is chosen for every request with an existing base
directory, a dotted triple in the path and a legal flag combination; and it is
the first dotted triple of the file name `path.Base(archivePath)` whenever the
path has no slash or its directory part contains no dotted triple. -/
theorem detected_version_is_first_triple_of_path :
    (∀ (env : Env) (r : Request) (tr : List Event) (p : Plan),
      resolvePlan env r = (tr, .ok p) → r.Version = [] →
        IsFirstTriple r.tarball p.Version) ∧
    (∀ (env : Env) (r : Request), env.DirExists r.Basedir = true →
      ContainsTriple r.tarball → (r.isShell = true ∨ r.target = []) → r.Version = [] →
        ∃ tr p, resolvePlan env r = (tr, .ok p) ∧ IsFirstTriple r.tarball p.Version) ∧
    (∀ (env : Env) (r : Request) (tr : List Event) (p : Plan),
      resolvePlan env r = (tr, .ok p) → r.Version = [] → '/' ∉ r.tarball →
        Base r.tarball = r.tarball ∧ IsFirstTriple (Base r.tarball) p.Version) ∧
    (∀ (env : Env) (r : Request) (tr : List Event) (p : Plan) (dir file : Str),
      resolvePlan env r = (tr, .ok p) → r.Version = [] →
      r.tarball = dir ++ '/' :: file → '/' ∉ file → ¬ ContainsTriple dir →
        Base r.tarball = file ∧ IsFirstTriple (Base r.tarball) p.Version) := by
  have hnil : ∀ (s v : Str), index0 (findAllAux 0 s) = some v → s ≠ [] := by
    intro s v h e
    rw [e] at h
    simp [findAllAux, index0] at h
  refine ⟨?_, ?_, ?_, ?_⟩
  · intro env r tr p h he
    obtain ⟨_, _, v, hv, hp, _, _⟩ := resolvePlan_ok_inv env r tr p h
    rw [hp, if_pos he]
    exact isFirstTriple_of_head _ _ hv
  · intro env r hb hc hf he
    obtain ⟨v, hv⟩ := head_of_containsTriple _ hc
    refine ⟨_, _, resolvePlan_ok env r v hb hv hf, ?_⟩
    simp only [he, if_true]
    exact isFirstTriple_of_head _ _ hv
  · intro env r tr p h he hs
    obtain ⟨_, _, v, hv, hp, _, _⟩ := resolvePlan_ok_inv env r tr p h
    have hb := base_of_no_slash _ (hnil _ _ hv) hs
    rw [hb, hp, if_pos he]
    exact ⟨rfl, isFirstTriple_of_head _ _ hv⟩
  · intro env r tr p dir file h he ht hs hn
    obtain ⟨_, _, v, hv, hp, _, _⟩ := resolvePlan_ok_inv env r tr p h
    rw [ht, head_skip_dir dir file hn] at hv
    have hb := base_of_dir dir file (hnil _ _ hv) hs
    rw [ht, hb, hp, if_pos he]
    exact ⟨rfl, isFirstTriple_of_head _ _ hv⟩

/-- Witness for C4 (amended): the documented MySQL 8.0.4 example. -/
theorem detected_version_is_first_triple_of_path_witness :
    IsFirstTriple reqMysql804.tarball "8.0.4".toList ∧
    Base reqMysql804.tarball = reqMysql804.tarball ∧
    IsFirstTriple (Base reqMysql804.tarball) "8.0.4".toList :=
  ⟨detected_version_is_first_triple_of_path.1 (envWith [optMysql]) reqMysql804
      [.dirExists optMysql, .versionToPort "8.0.4".toList]
      ⟨"8.0.4".toList, "/opt/mysql/8.0.4".toList⟩ rfl rfl,
    detected_version_is_first_triple_of_path.2.2.1 (envWith [optMysql]) reqMysql804
      [.dirExists optMysql, .versionToPort "8.0.4".toList]
      ⟨"8.0.4".toList, "/opt/mysql/8.0.4".toList⟩ rfl rfl (by decide)⟩

/-! ## Conflict guard (C5) -/

/-- C5: for every non-shell request without target override for which
`UnpackTarball` computes a destination that already exists, the run ends with
the destination-exists error naming that destination, right after the existence
check, and no extraction, merge or rename is invoked. -/
theorem existing_destination_conflict (env : Env) (r : Request) (tr : List Event) (p : Plan)
    (h : resolvePlan env r = (tr, .ok p)) (hs : r.isShell = false) (_ht : r.target = [])
    (hd : env.DirExists p.destination = true) :
    UnpackTarball env r
      = ⟨[.dirExists r.Basedir, .versionToPort p.Version, .dirExists p.destination],
          .exit 1 ["Destination directory ".toList ++ p.destination
            ++ " exists already\n".toList]⟩ ∧
    collabCalls (UnpackTarball env r).trace = [] := by
  have hc : (env.DirExists p.destination && !r.isShell) = true := by simp [hd, hs]
  obtain ⟨_, _, v, _, _, _, htr⟩ := resolvePlan_ok_inv env r tr p h
  rw [unpackTarball_of_conflict env r tr p h hc, htr]
  exact ⟨rfl, rfl⟩

/-- Witness for C5: the documented MySQL 8.0.4 example when `/opt/mysql/8.0.4`
exists already. -/
theorem existing_destination_conflict_witness :
    UnpackTarball (envWith [optMysql, "/opt/mysql/8.0.4".toList]) reqMysql804
      = ⟨[.dirExists optMysql, .versionToPort "8.0.4".toList,
            .dirExists "/opt/mysql/8.0.4".toList],
          .exit 1 ["Destination directory /opt/mysql/8.0.4 exists already\n".toList]⟩ ∧
    collabCalls (UnpackTarball (envWith [optMysql, "/opt/mysql/8.0.4".toList])
      reqMysql804).trace = [] :=
  existing_destination_conflict (envWith [optMysql, "/opt/mysql/8.0.4".toList]) reqMysql804
    [.dirExists optMysql, .versionToPort "8.0.4".toList]
    ⟨"8.0.4".toList, "/opt/mysql/8.0.4".toList⟩ rfl rfl rfl (by decide)

/-! ## Shell mode (C6) -/

theorem collabCalls_append (a b : List Event) :
    collabCalls (a ++ b) = collabCalls a ++ collabCalls b := by
  simp [collabCalls]

theorem collabCalls_resolved (r : Request) (p : Plan) :
    collabCalls ([.dirExists r.Basedir, .versionToPort p.Version] ++ [.dirExists p.destination])
      = [] := rfl

/-- Collaborator calls of the extract-and-rename part: the extraction first. -/
theorem extractAndRename_calls (env : Env) (r : Request) (p : Plan) (b : Str)
    (tr : List Event) :
    ∃ rest, collabCalls (extractAndRename env r p b tr).trace
      = collabCalls tr ++ .unpackTar r.tarball r.Basedir r.verbosity :: rest := by
  unfold extractAndRename
  cases env.UnpackTar r.tarball r.Basedir r.verbosity with
  | some err => exact ⟨[], by simp [collabCalls, Event.isCollab]⟩
  | none =>
    by_cases hf : r.Basedir ++ '/' :: b ≠ p.destination
    · simp only [hf, ne_eq, not_false_eq_true, if_true]
      cases env.Rename (r.Basedir ++ '/' :: b) p.destination with
      | some err =>
        exact ⟨[.rename (r.Basedir ++ '/' :: b) p.destination],
          by simp [collabCalls, Event.isCollab]⟩
      | none =>
        exact ⟨[.rename (r.Basedir ++ '/' :: b) p.destination],
          by simp [collabCalls, Event.isCollab]⟩
    · simp only [hf, if_false]
      exact ⟨[], by simp [collabCalls, Event.isCollab]⟩

/-- C6: in shell mode a successful merge is followed by the extraction: for
every validated shell request whose merge succeeds the collaborator calls are
the merge and then `UnpackTar` (and possibly the rename); on the example request
with destination `/opt/mysql/8.0.17` present, all three collaborators run. -/
theorem shell_merge_falls_through :
    (∀ (env : Env) (r : Request) (tr : List Event) (p : Plan) (b : Str),
      resolvePlan env r = (tr, .ok p) → r.isShell = true →
      barenameOf r.tarball = .ok (some b) →
      env.MergeShell r.tarball r.Basedir p.destination b r.verbosity = none →
        ∃ rest, collabCalls (UnpackTarball env r).trace
          = .mergeShell r.tarball r.Basedir p.destination b r.verbosity
            :: .unpackTar r.tarball r.Basedir r.verbosity :: rest) ∧
    collabCalls (UnpackTarball (envWith [optMysql, "/opt/mysql/8.0.17".toList]) reqShell).trace
      = [.mergeShell reqShell.tarball optMysql "/opt/mysql/8.0.17".toList
            "mysql-shell-8.0.17-linux-glibc2.12-x86-64bit".toList 1,
          .unpackTar reqShell.tarball optMysql 1,
          .rename "/opt/mysql/mysql-shell-8.0.17-linux-glibc2.12-x86-64bit".toList
            "/opt/mysql/8.0.17".toList] := by
  constructor
  · intro env r tr p b h hs hb hm
    have hc : (env.DirExists p.destination && !r.isShell) = false := by simp [hs]
    obtain ⟨_, _, v, _, _, _, htr⟩ := resolvePlan_ok_inv env r tr p h
    rw [unpackTarball_of_free env r tr p h hc, hb]
    simp only
    unfold coordinate
    simp only [hs, if_true, hm]
    obtain ⟨rest, hrest⟩ := extractAndRename_calls env r p b
      (tr ++ [.dirExists p.destination] ++
        [.print ("Merging shell tarball ".toList ++ env.ReplaceLiteralHome r.tarball
            ++ " to ".toList ++ env.ReplaceLiteralHome p.destination ++ "\n".toList),
          .mergeShell r.tarball r.Basedir p.destination b r.verbosity])
    refine ⟨rest, ?_⟩
    rw [hrest, htr]
    simp [collabCalls, Event.isCollab]
  · decide

/-- Witness for C6: the example shell request. -/
theorem shell_merge_falls_through_witness :
    ∃ rest, collabCalls
        (UnpackTarball (envWith [optMysql, "/opt/mysql/8.0.17".toList]) reqShell).trace
      = .mergeShell reqShell.tarball reqShell.Basedir "/opt/mysql/8.0.17".toList
          "mysql-shell-8.0.17-linux-glibc2.12-x86-64bit".toList reqShell.verbosity
        :: .unpackTar reqShell.tarball reqShell.Basedir reqShell.verbosity :: rest :=
  shell_merge_falls_through.1 (envWith [optMysql, "/opt/mysql/8.0.17".toList]) reqShell
    [.dirExists optMysql, .versionToPort "8.0.17".toList]
    ⟨"8.0.17".toList, "/opt/mysql/8.0.17".toList⟩
    "mysql-shell-8.0.17-linux-glibc2.12-x86-64bit".toList rfl rfl rfl rfl

/-! ## Target override without shell mode (C7) -/

/-- C7: a target override without `--shell` is answered with the
invalid-flag-combination error whenever the archive path contains a dotted
triple, but on `--target-server=8.0.17 --unpack-version=8.0.17 mysql-shell.tar.gz`
the run ends in the index panic of `verList[0][0]` before the flags are
compared. -/
theorem target_without_shell_panics :
    (∀ env : Env, env.DirExists optMysql = true →
      UnpackTarball env reqTargetNoShell = ⟨[.dirExists optMysql], indexPanic⟩) ∧
    (∀ (env : Env) (r : Request), env.DirExists r.Basedir = true →
      ContainsTriple r.tarball → r.isShell = false → r.target ≠ [] →
        UnpackTarball env r = ⟨[.dirExists r.Basedir], .exit 1 targetWithoutShellMsgs⟩) := by
  constructor
  · intro env hb
    exact unpackTarball_no_triple env reqTargetNoShell hb
      (not_containsTriple_of_head_none _ (by decide))
  · intro env r hb hc hs ht
    obtain ⟨v, hv⟩ := head_of_containsTriple _ hc
    exact unpackTarball_of_error env r _ _
      (resolvePlan_target_without_shell env r v hb hv hs ht)

/-- Witness for C7: the failing request in a world where `/opt/mysql` exists. -/
theorem target_without_shell_panics_witness :
    UnpackTarball (envWith [optMysql]) reqTargetNoShell
      = ⟨[.dirExists optMysql], indexPanic⟩ :=
  target_without_shell_panics.1 (envWith [optMysql]) (by decide)

/-! ## Archive suffix (C8) -/

/-- A run that stops inside `resolvePlan` ends abnormally. -/
theorem resolvePlan_error_failure (env : Env) (r : Request) (tr : List Event) (o : Outcome)
    (h : resolvePlan env r = (tr, .error o)) : o.isFailure = true := by
  cases hb : env.DirExists r.Basedir with
  | false =>
    rw [resolvePlan_no_basedir env r hb] at h
    simp only [Prod.mk.injEq, Except.error.injEq] at h
    rw [← h.2]
    rfl
  | true =>
    cases hv : index0 (findAllAux 0 r.tarball) with
    | none =>
      rw [resolvePlan_no_match env r hb hv] at h
      simp only [Prod.mk.injEq, Except.error.injEq] at h
      rw [← h.2]
      rfl
    | some v =>
      by_cases hf : r.isShell = true ∨ r.target = []
      · rw [resolvePlan_ok env r v hb hv hf] at h
        simp at h
      · have hs : r.isShell = false := by
          cases hh : r.isShell with
          | false => rfl
          | true => exact absurd (Or.inl hh) hf
        have ht : r.target ≠ [] := fun e => hf (Or.inr e)
        rw [resolvePlan_target_without_shell env r v hb hv hs ht] at h
        simp only [Prod.mk.injEq, Except.error.injEq] at h
        rw [← h.2]
        rfl

/-- A file name without the suffix belongs to a path without the suffix. -/
theorem hasSuffix_of_base (tarball : Str) (h : HasSuffix (Base tarball) extension = false) :
    HasSuffix tarball extension = false := by
  cases ht : HasSuffix tarball extension with
  | false => rfl
  | true =>
    obtain ⟨t, rfl⟩ := (hasSuffix_iff _ _).1 ht
    rw [base_of_suffix] at h
    have : HasSuffix (lastElem t ++ extension) extension = true :=
      (hasSuffix_iff _ _).2 ⟨_, rfl⟩
    rw [this] at h
    exact absurd h (by simp)

/-- C8: for every request whose archive path (or archive file name) does not
end with `.tar.gz`, whatever the flags, the run ends abnormally and invokes
neither extraction, merge nor rename; when it gets past the earlier checks it
ends with the error `Tarball extension must be .tar.gz`. -/
theorem bad_suffix_rejected (env : Env) (r : Request)
    (h : HasSuffix r.tarball extension = false ∨ HasSuffix (Base r.tarball) extension = false) :
    (UnpackTarball env r).outcome.isFailure = true ∧
    collabCalls (UnpackTarball env r).trace = [] ∧
    (∀ tr p, resolvePlan env r = (tr, .ok p) →
      (env.DirExists p.destination && !r.isShell) = false →
        (UnpackTarball env r).outcome
          = .exit 1 ["Tarball extension must be .tar.gz".toList]) := by
  have hsuf : HasSuffix r.tarball extension = false := by
    rcases h with h | h
    · exact h
    · exact hasSuffix_of_base _ h
  have hbn := barenameOf_bad_suffix r.tarball hsuf
  rcases hres : resolvePlan env r with ⟨tr, o | p⟩
  · rw [unpackTarball_of_error env r tr o hres]
    obtain ⟨htr, _⟩ := resolvePlan_error env r tr o hres
    refine ⟨resolvePlan_error_failure env r tr o hres, by rw [htr]; rfl, ?_⟩
    intro tr' p' h'
    simp at h'
  · obtain ⟨_, _, v, _, _, _, htr⟩ := resolvePlan_ok_inv env r tr p hres
    cases hc : (env.DirExists p.destination && !r.isShell) with
    | true =>
      rw [unpackTarball_of_conflict env r tr p hres hc, htr]
      refine ⟨rfl, rfl, ?_⟩
      intro tr' p' h' hc'
      simp only [Prod.mk.injEq, Except.ok.injEq] at h'
      rw [← h'.2, hc] at hc'
      exact absurd hc' (by simp)
    | false =>
      rw [unpackTarball_of_free env r tr p hres hc, hbn, htr]
      refine ⟨rfl, rfl, ?_⟩
      intro _ _ _ _
      rfl

/-- Witness for C8: the request `dbdeployer unpack mysql-8.0.4.zip`. -/
theorem bad_suffix_rejected_witness :
    (UnpackTarball (envWith [optMysql])
      ⟨optMysql, 1, "mysql-8.0.4.zip".toList, false, [], [], []⟩).outcome.isFailure = true ∧
    collabCalls (UnpackTarball (envWith [optMysql])
      ⟨optMysql, 1, "mysql-8.0.4.zip".toList, false, [], [], []⟩).trace = [] ∧
    (UnpackTarball (envWith [optMysql])
      ⟨optMysql, 1, "mysql-8.0.4.zip".toList, false, [], [], []⟩).outcome
        = .exit 1 ["Tarball extension must be .tar.gz".toList] :=
  have h := bad_suffix_rejected (envWith [optMysql])
    ⟨optMysql, 1, "mysql-8.0.4.zip".toList, false, [], [], []⟩ (Or.inl (by decide))
  ⟨h.1, h.2.1, h.2.2 [.dirExists optMysql, .versionToPort "8.0.4".toList]
    ⟨"8.0.4".toList, "/opt/mysql/8.0.4".toList⟩ rfl rfl⟩

/-! ## Version validation (C9) -/

/-- C9: the result of `VersionToPort` is discarded.  A run does not depend on
that helper at all, and on `--unpack-version=8.0 mysql-5.7.21.tar.gz`, where the
helper reports an error for `8.0`, the run extracts, renames and returns
normally. -/
theorem versionToPort_result_discarded :
    (∀ (env : Env) (f : Str → Except Str Nat) (r : Request),
      UnpackTarball { env with VersionToPort := f } r = UnpackTarball env r) ∧
    (envWith [optMysql]).VersionToPort "8.0".toList = .error "bad version".toList ∧
    UnpackTarball (envWith [optMysql]) reqBadVersion
      = ⟨[.dirExists optMysql, .versionToPort "8.0".toList,
            .dirExists "/opt/mysql/8.0".toList,
            .print "Unpacking tarball mysql-5.7.21.tar.gz to /opt/mysql/8.0\n".toList,
            .unpackTar "mysql-5.7.21.tar.gz".toList optMysql 1,
            .print "Renaming directory /opt/mysql/mysql-5.7.21 to /opt/mysql/8.0\n".toList,
            .rename "/opt/mysql/mysql-5.7.21".toList "/opt/mysql/8.0".toList],
          .done⟩ := by
  refine ⟨?_, rfl, ?_⟩
  · intro env f r
    rfl
  · decide

/-! ## Barename (C10) -/

theorem namesDirectChild_iff (dir b : Str) :
    NamesDirectChild dir (dir ++ '/' :: b) ↔ isEntryName b = true := by
  constructor
  · rintro ⟨n, hn, he⟩
    have : '/' :: b = '/' :: n := List.append_cancel_left he
    simp only [List.cons.injEq, true_and] at this
    rw [this]
    exact hn
  · intro h
    exact ⟨b, h, rfl⟩

/-- C10, as stated, fails on the degenerate name it mentions: for `.tar.gz` the
barename is empty, so `baseDir + "/" + barename` is `/opt/mysql/`, the base
directory itself and not a child of it; on `5.7.21/.tar.gz` the run renames
`/opt/mysql/` to `/opt/mysql/5.7.21`. -/
theorem bare_suffix_counterexample :
    HasSuffix ".tar.gz".toList extension = true ∧
    barenameOf ".tar.gz".toList = .ok (some []) ∧
    optMysql ++ '/' :: [] = "/opt/mysql/".toList ∧
    ¬ NamesDirectChild optMysql (optMysql ++ '/' :: []) ∧
    barenameOf reqBareSuffix.tarball = .ok (some []) ∧
    collabCalls (UnpackTarball (envWith [optMysql]) reqBareSuffix).trace
      = [.unpackTar "5.7.21/.tar.gz".toList optMysql 1,
          .rename "/opt/mysql/".toList "/opt/mysql/5.7.21".toList] := by
  refine ⟨by decide, rfl, by decide, ?_, rfl, by decide⟩
  rw [namesDirectChild_iff]
  decide

/-- C10 (amended): for every archive path that ends with `.tar.gz` the slice
bound `len(base) - len(".tar.gz")` is not negative, the barename is computed and
satisfies `barename ++ ".tar.gz" = path.Base(archivePath)`, and the barename
contains no slash; `baseDir + "/" + barename` names a direct child of the base
directory exactly when the barename is not empty, `.` or `..`. -/
theorem barename_spec (tarball : Str) (h : HasSuffix tarball extension = true) :
    0 ≤ ((Base tarball).length : Int) - (extension.length : Int) ∧
    ∃ b, barenameOf tarball = .ok (some b) ∧ b ++ extension = Base tarball ∧ '/' ∉ b ∧
      ∀ dir : Str, NamesDirectChild dir (dir ++ '/' :: b)
        ↔ (b ≠ [] ∧ b ≠ ".".toList ∧ b ≠ "..".toList) := by
  obtain ⟨t, rfl⟩ := (hasSuffix_iff _ _).1 h
  refine ⟨?_, lastElem t, barenameOf_suffix t, (base_of_suffix t).symm,
    lastElem_no_slash t, ?_⟩
  · rw [base_of_suffix]
    simp
  · intro dir
    rw [namesDirectChild_iff]
    have hs := lastElem_no_slash t
    unfold isEntryName
    simp only [Bool.and_eq_true, decide_eq_true_eq]
    constructor
    · rintro ⟨⟨⟨h1, _⟩, h3⟩, h4⟩
      exact ⟨h1, h3, h4⟩
    · rintro ⟨h1, h3, h4⟩
      exact ⟨⟨⟨h1, hs⟩, h3⟩, h4⟩

/-- Witness for C10 (amended): the documented Percona archive. -/
theorem barename_spec_witness :
    0 ≤ ((Base reqPercona.tarball).length : Int) - (extension.length : Int) ∧
    ∃ b, barenameOf reqPercona.tarball = .ok (some b) ∧
      b ++ extension = Base reqPercona.tarball ∧ '/' ∉ b ∧
      ∀ dir : Str, NamesDirectChild dir (dir ++ '/' :: b)
        ↔ (b ≠ [] ∧ b ≠ ".".toList ∧ b ≠ "..".toList) :=
  barename_spec reqPercona.tarball (by decide)

end Unpack
